import Mathlib

/-!
# Verification of the `email_server` mail server core

Shallow embedding of the maildir storage engine, the TLS-capable line
session runtime, and the IMAP / SMTP / POP3 session cores, translated
from the C++ sources (`src/common`, `src/imap`, `src/smtp`, `src/pop3`),
together with theorems settling the specification claims about them.

Conventions used throughout:
* strings handled character-by-character in the C++ code are modelled as
  `List Char`; maildir flag sets (`std::set<char>`) as sorted duplicate-free
  `List Char`; IMAP flag sets (`std::set<std::string>`) as `List String`
  with membership via `List.contains`;
* on-disk state (the `.uidvalidity` file, the set of message files of a
  mailbox) is passed explicitly and returned updated;
* filesystem message identities (`unique_id`) are opaque tokens modelled
  as `Nat`.
-/

namespace EmailServer

/-! ## Maildir store: UID allocation (`Maildir::get_uid_validity`, `Maildir::allocate_uid`)

The `.uidvalidity` file of a mailbox holds two integers: the UIDVALIDITY
value and the next UID to allocate.  `none` models an absent file,
`some (validity, next)` a well-formed file. -/

/-- Embeds `Maildir::allocate_uid` (maildir.cpp:622-639): read `(validity, next)`
from `.uidvalidity` (defaults `(0, 1)` when the file is absent), write back
`(validity, next + 1)`, and return `next`.  Result: (returned UID, new file
contents). -/
def allocate_uid : Option (Nat × Nat) → Nat × Option (Nat × Nat)
  | none => (1, some (0, 2))
  | some (v, n) => (n, some (v, n + 1))

/-- Embeds `Maildir::get_uid_validity` (maildir.cpp:599-620): return the first
integer of `.uidvalidity` if the file is readable; otherwise create the file
as `(now, 1)` and return `now`.  Result: (validity, new file contents). -/
def get_uid_validity (now : Nat) : Option (Nat × Nat) → Nat × Option (Nat × Nat)
  | some (v, n) => (v, some (v, n))
  | none => (now, some (now, 1))

/-- The values returned by `k` successive `allocate_uid` calls starting from
file contents `f`. -/
def allocList : Nat → Option (Nat × Nat) → List Nat
  | 0, _ => []
  | k + 1, f =>
    let r := allocate_uid f
    r.1 :: allocList k r.2

/-! ## Maildir store: messages and mailbox info -/

/-- One message file of a maildir mailbox, as parsed by
`Maildir::parse_message_file` (maildir.cpp:266-301): the `unique_id`
filename part, the byte size, the flag characters after `:2,`, and whether
the file lives in `new/`. -/
structure MdMessage where
  uniqueId : Nat
  size : Nat
  flags : List Char
  isNew : Bool
  mtime : Nat
  deriving DecidableEq, Repr

/-- Embeds `Message::is_seen()`: the maildir flag set contains `S`. -/
def MdMessage.is_seen (m : MdMessage) : Bool := m.flags.contains 'S'

/-- The on-disk state of one mailbox: whether its `cur/` directory exists,
the `.uidvalidity` contents, and the message files in the order
`Maildir::list_messages` returns them (mtime ascending). -/
structure MailboxState where
  curExists : Bool
  uidFile : Option (Nat × Nat)
  msgs : List MdMessage
  deriving DecidableEq, Repr

/-- The aggregate returned by `Maildir::get_mailbox_info`
(maildir.cpp:151-179). -/
structure MailboxInfo where
  uid_validity : Nat
  uid_next : Nat
  total_messages : Nat
  recent_messages : Nat
  unseen_messages : Nat
  total_size : Nat
  deriving DecidableEq, Repr

/-- Embeds `Maildir::get_mailbox_info` (maildir.cpp:151-179): `nullopt` when
`cur/` is missing; otherwise builds the aggregate — note that it obtains
`uid_next` by calling `allocate_uid`, which rewrites `.uidvalidity` with an
incremented next-UID.  Result: (info, updated on-disk state). -/
def get_mailbox_info (now : Nat) (st : MailboxState) :
    Option MailboxInfo × MailboxState :=
  if !st.curExists then (none, st)
  else
    let r1 := get_uid_validity now st.uidFile
    let r2 := allocate_uid r1.2
    let info : MailboxInfo :=
      { uid_validity := r1.1
        uid_next := r2.1
        total_messages := st.msgs.length
        recent_messages := st.msgs.countP (·.isNew)
        unseen_messages := st.msgs.countP (fun m => !m.is_seen)
        total_size := (st.msgs.map (·.size)).sum }
    (some info, { st with uidFile := r2.2 })

/-- The fields of `SelectedMailbox` that `IMAPSession::select_mailbox`
(imap_session.cpp:88-115) copies out of `get_mailbox_info`. -/
structure SelectedMailbox where
  uid_validity : Nat
  uid_next : Nat
  mexists : Nat
  recent : Nat
  unseen : Nat
  deriving DecidableEq, Repr

/-- Embeds `IMAPSession::select_mailbox` (imap_session.cpp:88-115), restricted to
its interaction with the store: calls `get_mailbox_info` and, on success,
copies the counters and UID fields into the selected-mailbox record.
Result: (selected record if the mailbox exists, updated on-disk state). -/
def select_mailbox (now : Nat) (st : MailboxState) :
    Option SelectedMailbox × MailboxState :=
  let r := get_mailbox_info now st
  match r.1 with
  | none => (none, r.2)
  | some info =>
      (some { uid_validity := info.uid_validity
              uid_next := info.uid_next
              mexists := info.total_messages
              recent := info.recent_messages
              unseen := info.unseen_messages }, r.2)

/-! ## POP3 session core (`pop3_session.cpp`, `pop3_commands.cpp`) -/

/-- Embeds `MessageInfo` (pop3_session.hpp): 1-based message number, maildir
unique id, byte size. -/
structure P3MessageInfo where
  number : Nat
  uniqueId : Nat
  size : Nat
  deriving DecidableEq, Repr

/-- The per-connection POP3 transaction state: the loaded message list and
the set of message numbers marked deleted (`deleted_messages_`,
a `std::set<size_t>`). -/
structure POP3State where
  msgs : List P3MessageInfo
  deleted : Finset Nat
  deriving DecidableEq

/-- Embeds `POP3Session::load_messages` (pop3_session.cpp:93-112): number the
maildir messages 1..n in list order, with an empty deletion set. -/
def pop3_load (raw : List MdMessage) : POP3State :=
  { msgs := raw.enum.map (fun p => ⟨p.1 + 1, p.2.uniqueId, p.2.size⟩)
    deleted := ∅ }

/-- Embeds `POP3Session::get_message` (pop3_session.cpp:114-122): `none` when the
number is out of range, otherwise the record plus its current deleted
mark. -/
def pop3_get_message (st : POP3State) (n : Nat) : Option (P3MessageInfo × Bool) :=
  if h : n < 1 ∨ st.msgs.length < n then none
  else some (st.msgs.get ⟨n - 1, by omega⟩, n ∈ st.deleted)

/-- Embeds `POP3Session::mark_deleted` (pop3_session.cpp:173-180): insert the
number into the deletion set when it is in range. -/
def pop3_mark_deleted (st : POP3State) (n : Nat) : POP3State × Bool :=
  if n < 1 ∨ st.msgs.length < n then (st, false)
  else ({ st with deleted := insert n st.deleted }, true)

/-- Embeds `POP3Session::total_messages` (pop3_session.cpp:201-209): count the
loaded messages whose number `i+1` is not in the deletion set. -/
def pop3_total_messages (st : POP3State) : Nat :=
  (List.range st.msgs.length).countP (fun i => decide ((i + 1) ∉ st.deleted))

/-- Embeds `POP3Session::total_size` (pop3_session.cpp:211-219): sum the sizes of
the loaded messages whose number `i+1` is not in the deletion set. -/
def pop3_total_size (st : POP3State) : Nat :=
  ((st.msgs.enum.filter (fun p => decide ((p.1 + 1) ∉ st.deleted))).map
    (fun p => p.2.size)).sum

/-- POP3 `response::ok` (pop3_commands.hpp): `"+OK"`, or `"+OK " ++ msg`. -/
def pop3_ok (msg : String) : String :=
  if msg.isEmpty then "+OK" else "+OK " ++ msg

/-- Embeds `CommandHandler::handle_stat` (pop3_commands.cpp:163-170), in
TRANSACTION state: `+OK <count> <bytes>`. -/
def handle_stat (st : POP3State) : String :=
  pop3_ok (toString (pop3_total_messages st) ++ " " ++ toString (pop3_total_size st))

/-- A DELE or RSET command in TRANSACTION state (the two commands claim C9
quantifies over). -/
inductive TxCommand where
  | dele (n : Nat)
  | rset
  deriving DecidableEq, Repr

/-- Embeds `CommandHandler::handle_dele` (pop3_commands.cpp:243-267) /
`handle_rset` (pop3_commands.cpp:276-283), state effect only: DELE is a
no-op (error reply) when the number is out of range or already deleted,
otherwise marks it; RSET clears the deletion set
(`POP3Session::reset_deleted`). -/
def pop3_apply (st : POP3State) : TxCommand → POP3State
  | .dele n =>
      match pop3_get_message st n with
      | none => st
      | some (_, true) => st
      | some (_, false) => (pop3_mark_deleted st n).1
  | .rset => { st with deleted := ∅ }

/-- Run a sequence of DELE/RSET commands. -/
def pop3_run (st : POP3State) (cmds : List TxCommand) : POP3State :=
  cmds.foldl pop3_apply st

/-! ## Theorems: claim C8 (UID allocation) -/

lemma allocList_some (k v n : Nat) :
    allocList k (some (v, n)) = List.range' n k := by
  induction k generalizing n with
  | zero => rfl
  | succ k ih => simp [allocList, allocate_uid, ih (n + 1), List.range'_succ]

lemma allocList_none (k : Nat) : allocList k none = List.range' 1 k := by
  cases k with
  | zero => rfl
  | succ k => simp [allocList, allocate_uid, allocList_some, List.range'_succ]

/-- C8: `allocate_uid` reads the persisted next-UID value, returns it, and
writes back that value plus one; hence `k` successive calls return the
arithmetic progression `next, next+1, …` — strictly increasing — and the
first value returned on a freshly-created mailbox (no `.uidvalidity` file,
or one freshly written by `get_uid_validity`) is 1. -/
theorem C8_allocate_uid_strictly_increasing :
    (∀ v n, allocate_uid (some (v, n)) = (n, some (v, n + 1))) ∧
    (∀ k v n, allocList k (some (v, n)) = List.range' n k) ∧
    (∀ k f, (allocList k f).Pairwise (· < ·)) ∧
    (allocate_uid none).1 = 1 ∧
    (∀ now, (allocate_uid (get_uid_validity now none).2).1 = 1) := by
  refine ⟨fun v n => rfl, allocList_some, fun k f => ?_, rfl, fun now => rfl⟩
  match f with
  | none => rw [allocList_none]; exact List.pairwise_lt_range' 1 k
  | some (v, n) => rw [allocList_some]; exact List.pairwise_lt_range' n k

/-! ## Theorems: claim C10 (`get_mailbox_info` mutates the UID counter) -/

/-- C10: `get_mailbox_info` is not read-only: on an existing mailbox it
invokes `allocate_uid`, so the persisted next-UID value in `.uidvalidity`
is incremented by one and the pre-increment value is reported as
`uid_next`; `select_mailbox` (hence IMAP SELECT/EXAMINE, and STATUS, which
call it) inherits both effects.  When the file is absent it is created and
the same increment happens starting from 1. -/
theorem C10_get_mailbox_info_allocates_uid (now : Nat) (st : MailboxState)
    (hcur : st.curExists = true) :
    (∀ v n, st.uidFile = some (v, n) →
      ((get_mailbox_info now st).2.uidFile = some (v, n + 1) ∧
       (∃ info, (get_mailbox_info now st).1 = some info ∧ info.uid_next = n) ∧
       (select_mailbox now st).2.uidFile = some (v, n + 1) ∧
       (∃ sel, (select_mailbox now st).1 = some sel ∧ sel.uid_next = n))) ∧
    (st.uidFile = none →
      (get_mailbox_info now st).2.uidFile = some (now, 2) ∧
      ∃ info, (get_mailbox_info now st).1 = some info ∧ info.uid_next = 1) := by
  constructor
  · intro v n hfile
    simp [get_mailbox_info, select_mailbox, hcur, hfile, get_uid_validity, allocate_uid]
  · intro hfile
    simp [get_mailbox_info, hcur, hfile, get_uid_validity, allocate_uid]

/-- Witness for C10 at a concrete mailbox state. -/
theorem C10_get_mailbox_info_allocates_uid_witness :
    (get_mailbox_info 99 ⟨true, some (7, 5), []⟩).2.uidFile = some (7, 6) ∧
    ∃ info, (get_mailbox_info 99 ⟨true, some (7, 5), []⟩).1 = some info ∧
      info.uid_next = 5 := by
  have h := (C10_get_mailbox_info_allocates_uid 99 ⟨true, some (7, 5), []⟩ rfl).1 7 5 rfl
  exact ⟨h.1, h.2.1⟩

/-! ## Theorems: claim C9 (POP3 STAT after DELE/RSET sequences) -/

lemma pop3_get_message_bounds {st : POP3State} {n : Nat} {z}
    (h : pop3_get_message st n = some z) : 1 ≤ n ∧ n ≤ st.msgs.length := by
  unfold pop3_get_message at h
  split at h
  · exact absurd h (by simp)
  · omega

lemma pop3_apply_msgs (st : POP3State) (c : TxCommand) :
    (pop3_apply st c).msgs = st.msgs := by
  cases c with
  | dele n =>
    simp only [pop3_apply]
    rcases h : pop3_get_message st n with _ | ⟨m, b⟩
    · rfl
    · cases b
      · simp only [pop3_mark_deleted]
        split <;> rfl
      · rfl
  | rset => rfl

lemma pop3_run_msgs (cmds : List TxCommand) (st : POP3State) :
    (pop3_run st cmds).msgs = st.msgs := by
  induction cmds generalizing st with
  | nil => rfl
  | cons c cs ih =>
    show (pop3_run (pop3_apply st c) cs).msgs = st.msgs
    rw [ih, pop3_apply_msgs]

lemma pop3_apply_bounds {st : POP3State} (c : TxCommand)
    (h : ∀ x ∈ st.deleted, 1 ≤ x ∧ x ≤ st.msgs.length) :
    ∀ x ∈ (pop3_apply st c).deleted, 1 ≤ x ∧ x ≤ (pop3_apply st c).msgs.length := by
  rw [pop3_apply_msgs]
  cases c with
  | dele n =>
    simp only [pop3_apply]
    rcases hg : pop3_get_message st n with _ | ⟨m, b⟩
    · exact h
    · cases b
      · have hb := pop3_get_message_bounds hg
        simp only [pop3_mark_deleted]
        split
        · exact h
        · intro x hx
          rcases Finset.mem_insert.mp hx with rfl | hx
          · exact hb
          · exact h x hx
      · exact h
  | rset => simp [pop3_apply]

lemma pop3_run_bounds (cmds : List TxCommand) (st : POP3State)
    (h : ∀ x ∈ st.deleted, 1 ≤ x ∧ x ≤ st.msgs.length) :
    ∀ x ∈ (pop3_run st cmds).deleted, 1 ≤ x ∧ x ≤ (pop3_run st cmds).msgs.length := by
  induction cmds generalizing st with
  | nil => exact h
  | cons c cs ih => exact ih (pop3_apply st c) (pop3_apply_bounds c h)

lemma countP_mem_range (S : Finset Nat) (n : Nat)
    (h : ∀ x ∈ S, 1 ≤ x ∧ x ≤ n) :
    (List.range n).countP (fun i => decide ((i + 1) ∈ S)) = S.card := by
  induction n generalizing S with
  | zero =>
    have : S = ∅ := Finset.eq_empty_of_forall_not_mem (fun x hx => by
      have := h x hx; omega)
    simp [this]
  | succ n ih =>
    rw [List.range_succ, List.countP_append]
    by_cases hn : (n + 1) ∈ S
    · have hcong : (List.range n).countP (fun i => decide ((i + 1) ∈ S)) =
          (List.range n).countP (fun i => decide ((i + 1) ∈ S.erase (n + 1))) := by
        apply List.countP_congr
        intro i hi
        have hi' : i < n := List.mem_range.mp hi
        simp only [decide_eq_true_eq, Finset.mem_erase]
        constructor
        · intro hmem; exact ⟨by omega, hmem⟩
        · intro hmem; exact hmem.2
      have herase := ih (S.erase (n + 1)) (fun x hx => by
        rcases Finset.mem_erase.mp hx with ⟨hne, hmem⟩
        have := h x hmem; omega)
      rw [hcong, herase, Finset.card_erase_of_mem hn]
      have hpos : 0 < S.card := Finset.card_pos.mpr ⟨n + 1, hn⟩
      simp [hn]
      omega
    · have herase := ih S (fun x hx => by
        have hb := h x hx
        have : x ≠ n + 1 := fun hEq => hn (hEq ▸ hx)
        omega)
      rw [herase]
      simp [hn]

lemma pop3_total_messages_eq {st : POP3State}
    (h : ∀ x ∈ st.deleted, 1 ≤ x ∧ x ≤ st.msgs.length) :
    pop3_total_messages st = st.msgs.length - st.deleted.card := by
  unfold pop3_total_messages
  have hlen := List.length_eq_countP_add_countP
    (fun i => decide ((i + 1) ∈ st.deleted)) (List.range st.msgs.length)
  have hcard := countP_mem_range st.deleted st.msgs.length h
  have hcong : (List.range st.msgs.length).countP
      (fun a => decide ¬(decide ((a + 1) ∈ st.deleted)) = true) =
      (List.range st.msgs.length).countP (fun i => decide ((i + 1) ∉ st.deleted)) := by
    apply List.countP_congr; intro i _; simp
  rw [List.length_range] at hlen
  omega

lemma pop3_total_size_enumFrom (msgs : List P3MessageInfo) (S : Finset Nat) (k : Nat)
    (h : ∀ i (hi : i < msgs.length), (msgs.get ⟨i, hi⟩).number = k + i + 1) :
    (((List.enumFrom k msgs).filter (fun p => decide ((p.1 + 1) ∉ S))).map
      (fun p => p.2.size)).sum =
    ((msgs.filter (fun m => decide (m.number ∉ S))).map (fun m => m.size)).sum := by
  induction msgs generalizing k with
  | nil => rfl
  | cons m rest ih =>
    have hm : m.number = k + 1 := by simpa using h 0 (by simp)
    have hrest : ∀ i (hi : i < rest.length),
        (rest.get ⟨i, hi⟩).number = (k + 1) + i + 1 := by
      intro i hi
      have := h (i + 1) (by simpa using Nat.succ_lt_succ hi)
      simpa [Nat.add_assoc, Nat.add_comm, Nat.add_left_comm] using this
    have ih' := ih (k + 1) hrest
    simp only [decide_not] at ih'
    by_cases hmem : (k + 1) ∈ S
    · simp [List.enumFrom, List.filter_cons, hm, hmem, ih']
    · simp [List.enumFrom, List.filter_cons, hm, hmem, ih']

lemma pop3_load_numbering (raw : List MdMessage) :
    ∀ i (hi : i < (pop3_load raw).msgs.length),
      ((pop3_load raw).msgs.get ⟨i, hi⟩).number = i + 1 := by
  intro i hi
  unfold pop3_load at hi ⊢
  simp only [List.get_eq_getElem, List.getElem_map]
  have hlen : i < raw.enum.length := by simpa using hi
  have hraw : i < raw.length := by simpa using hi
  have : raw.enum[i] = (i, raw[i]) := by
    simpa using List.getElem_enumFrom raw 0 i hlen
  rw [this]

/-- C9: for any POP3 session and any sequence of DELE and RSET commands,
STAT replies `+OK <count> <bytes>` where `count` is the number of loaded
messages minus the number currently marked deleted, and `bytes` is the sum
of the sizes of the non-deleted messages. -/
theorem C9_stat_counts_non_deleted (raw : List MdMessage) (cmds : List TxCommand) :
    pop3_total_messages (pop3_run (pop3_load raw) cmds) =
      (pop3_run (pop3_load raw) cmds).msgs.length -
      (pop3_run (pop3_load raw) cmds).deleted.card ∧
    pop3_total_size (pop3_run (pop3_load raw) cmds) =
      (((pop3_run (pop3_load raw) cmds).msgs.filter
        (fun m => decide (m.number ∉ (pop3_run (pop3_load raw) cmds).deleted))).map
        (fun m => m.size)).sum ∧
    handle_stat (pop3_run (pop3_load raw) cmds) =
      pop3_ok (toString ((pop3_run (pop3_load raw) cmds).msgs.length -
          (pop3_run (pop3_load raw) cmds).deleted.card) ++ " " ++
        toString ((((pop3_run (pop3_load raw) cmds).msgs.filter
          (fun m => decide (m.number ∉ (pop3_run (pop3_load raw) cmds).deleted))).map
          (fun m => m.size)).sum)) := by
  have hmsgs : (pop3_run (pop3_load raw) cmds).msgs = (pop3_load raw).msgs :=
    pop3_run_msgs cmds (pop3_load raw)
  have hbounds : ∀ x ∈ (pop3_run (pop3_load raw) cmds).deleted,
      1 ≤ x ∧ x ≤ (pop3_run (pop3_load raw) cmds).msgs.length :=
    pop3_run_bounds cmds (pop3_load raw) (by simp [pop3_load])
  have hnum : ∀ i (hi : i < (pop3_run (pop3_load raw) cmds).msgs.length),
      ((pop3_run (pop3_load raw) cmds).msgs.get ⟨i, hi⟩).number = i + 1 := by
    intro i hi
    have hi' : i < (pop3_load raw).msgs.length := by rwa [hmsgs] at hi
    have h2 := pop3_load_numbering raw i hi'
    simp only [List.get_eq_getElem] at h2 ⊢
    simp_rw [hmsgs]
    exact h2
  have hcount := pop3_total_messages_eq hbounds
  have hsize : pop3_total_size (pop3_run (pop3_load raw) cmds) =
      (((pop3_run (pop3_load raw) cmds).msgs.filter
        (fun m => decide (m.number ∉ (pop3_run (pop3_load raw) cmds).deleted))).map
        (fun m => m.size)).sum := by
    unfold pop3_total_size
    exact pop3_total_size_enumFrom _ _ 0 (by simpa using hnum)
  refine ⟨hcount, hsize, ?_⟩
  unfold handle_stat
  rw [hcount, hsize]

/-! ## SMTP address parsing (`EmailAddress::parse`, smtp_commands.cpp:151-184) -/

/-- Index of the first character satisfying `p`, as `std::string::find` and
`find_first_not_of` report it (`none` models `npos`). -/
def idxOfP (p : Char → Bool) : List Char → Option Nat
  | [] => none
  | c :: rest => if p c then some 0 else (idxOfP p rest).map (· + 1)

/-- smtp_commands.cpp:153-159: when both a `'<'` and a `'>'` occur and the
first `'>'` comes after the first `'<'`, keep only the characters strictly
between them (`substr(start + 1, end - start - 1)`). -/
def stripAngles (l : List Char) : List Char :=
  match idxOfP (· == '<') l, idxOfP (· == '>') l with
  | some s, some e => if s < e then (l.drop (s + 1)).take (e - s - 1) else l
  | _, _ => l

/-- The whitespace set `" \t"` used by the trim step. -/
def isSpTab (c : Char) : Bool := c == ' ' || c == '\t'

/-- smtp_commands.cpp:161-166: trim leading and trailing space/tab —
but only when at least one non-whitespace character exists (the
`find_first_not_of/find_last_not_of != npos` guard), otherwise the string
is left unchanged. -/
def trimSpTab (l : List Char) : List Char :=
  match idxOfP (fun c => !isSpTab c) l, idxOfP (fun c => !isSpTab c) l.reverse with
  | some a, some b' => (l.drop a).take (l.length - 1 - b' - a + 1)
  | _, _ => l

/-- Embeds `EmailAddress` (smtp_commands.hpp): local part, domain, and the full
stripped address. -/
structure EmailAddress where
  local_part : List Char
  domain : List Char
  full_address : List Char
  deriving DecidableEq, Repr

/-- Embeds `EmailAddress::parse` (smtp_commands.cpp:151-184): strip angle
brackets, trim space/tab, locate the first `'@'`; `none`, position 0, or
last position fail unless the string is empty (the null sender `<>`);
otherwise split at the first `'@'`. -/
def parseEmail (str : List Char) : Option EmailAddress :=
  let email := trimSpTab (stripAngles str)
  match idxOfP (· == '@') email with
  | none => if email.isEmpty then some ⟨[], [], []⟩ else none
  | some i =>
      if i == 0 || i == email.length - 1 then
        if email.isEmpty then some ⟨[], [], []⟩ else none
      else some ⟨email.take i, email.drop (i + 1), email⟩

/-- Embeds `EmailAddress::parse` on a whole string. -/
def EmailAddress.parse (s : String) : Option EmailAddress := parseEmail s.toList

/-- Occurrences of a character in a string's characters. -/
def countChar (c : Char) (l : List Char) : Nat := l.countP (· == c)

/-! ## SMTP DATA accumulation (`SMTPSession::process_data_line`, smtp_session.cpp:148-180) -/

/-- The SMTP session states (smtp_session.hpp). -/
inductive SMTPState where
  | CONNECTED | GREETED | MAIL | RCPT | DATA | QUIT
  deriving DecidableEq, Repr

/-- Embeds `Envelope` (smtp_session.hpp:31-41). -/
structure Envelope where
  mail_from : List Char
  rcpt_to : List (List Char)
  data : List Char
  deriving DecidableEq, Repr

/-- Embeds `Envelope::clear()`: all three fields emptied. -/
def Envelope.clear : Envelope := ⟨[], [], []⟩

/-- The part of the SMTP session state that `process_data_line` touches. -/
structure SMTPDataSt where
  state : SMTPState
  envelope : Envelope
  data_buffer : List Char
  deriving DecidableEq, Repr

/-- SMTP `reply::make` (smtp_commands.hpp:104-106): `<code> <message>`. -/
def reply_make (code : Nat) (message : String) : String :=
  toString code ++ " " ++ message

/-- The dot-unstuffing step (smtp_session.cpp:164-168): remove exactly one
leading `'.'` when present. -/
def dotUnstuff : List Char → List Char
  | '.' :: rest => rest
  | l => l

/-- Embeds `SMTPSession::process_data_line` (smtp_session.cpp:148-180).  The
delivery attempt made on the terminating `"."` line goes through
`deliver_message` (maildir / relay I/O), abstracted by the `deliverOk`
oracle.  Returns the successor state and the reply sent, if any. -/
def process_data_line (maxMessageSize : Nat) (deliverOk : Bool)
    (st : SMTPDataSt) (line : List Char) : SMTPDataSt × Option String :=
  if line = ['.'] then
    ({ state := .GREETED, envelope := Envelope.clear, data_buffer := [] },
     some (if deliverOk then reply_make 250 "Message accepted for delivery"
           else reply_make 451 "Delivery failed"))
  else
    let content_line := dotUnstuff line
    if st.data_buffer.length + content_line.length + 2 > maxMessageSize then
      ({ state := .GREETED, envelope := Envelope.clear, data_buffer := [] },
       some (reply_make 552 "Message too large"))
    else
      ({ st with data_buffer := st.data_buffer ++ content_line ++ ['\r', '\n'] },
       none)

/-! ## Theorems: claim C7 (DATA dot-unstuffing, terminator, size limit) -/

lemma dotUnstuff_head_ne {l : List Char} (h : l.head? ≠ some '.') :
    dotUnstuff l = l := by
  unfold dotUnstuff
  split
  · rename_i heq
    simp at h
  · rfl

/-- C7: while in DATA state, a line equal to `.` alone terminates
accumulation and triggers delivery (reply 250 or 451, envelope and buffer
cleared, state back to GREETED); any other line has exactly one leading
`.` removed if present and is appended to the buffer followed by CRLF
(so the on-the-wire `..X` is stored as `.X` and `..` as the body line
`.`); and when the appended line would push the buffer past
`max_message_size` the reply is 552, the envelope and buffer are cleared,
and the state returns to GREETED. -/
theorem C7_process_data_line_spec (maxMessageSize : Nat) (deliverOk : Bool)
    (st : SMTPDataSt) (line : List Char) (hst : st.state = .DATA) :
    (line = ['.'] →
      process_data_line maxMessageSize deliverOk st line =
        ({ state := .GREETED, envelope := Envelope.clear, data_buffer := [] },
         some (if deliverOk then reply_make 250 "Message accepted for delivery"
               else reply_make 451 "Delivery failed"))) ∧
    (∀ rest, line = '.' :: rest → line ≠ ['.'] →
      st.data_buffer.length + rest.length + 2 ≤ maxMessageSize →
      process_data_line maxMessageSize deliverOk st line =
        ({ st with data_buffer := st.data_buffer ++ rest ++ ['\r', '\n'] }, none)) ∧
    (line ≠ ['.'] → line.head? ≠ some '.' →
      st.data_buffer.length + line.length + 2 ≤ maxMessageSize →
      process_data_line maxMessageSize deliverOk st line =
        ({ st with data_buffer := st.data_buffer ++ line ++ ['\r', '\n'] }, none)) ∧
    (line ≠ ['.'] →
      st.data_buffer.length + (dotUnstuff line).length + 2 > maxMessageSize →
      process_data_line maxMessageSize deliverOk st line =
        ({ state := .GREETED, envelope := Envelope.clear, data_buffer := [] },
         some (reply_make 552 "Message too large"))) ∧
    (∀ X, line = '.' :: '.' :: X →
      st.data_buffer.length + X.length + 3 ≤ maxMessageSize →
      process_data_line maxMessageSize deliverOk st line =
        ({ st with data_buffer := st.data_buffer ++ ('.' :: X) ++ ['\r', '\n'] },
         none)) := by
  refine ⟨?_, ?_, ?_, ?_, ?_⟩
  · intro hdot
    simp [process_data_line, hdot]
  · intro rest hline hne hsize
    have hlen : (dotUnstuff line).length = rest.length := by
      rw [hline]; rfl
    simp only [process_data_line, if_neg hne]
    rw [if_neg (by omega)]
    rw [hline]
    rfl
  · intro hne hhead hsize
    have hds : dotUnstuff line = line := dotUnstuff_head_ne hhead
    simp only [process_data_line, if_neg hne]
    rw [hds, if_neg (by omega)]
  · intro hne hsize
    simp only [process_data_line, if_neg hne]
    rw [if_pos (by omega)]
  · intro X hline hsize
    have hne : line ≠ ['.'] := by rw [hline]; simp
    have hlen : (dotUnstuff line).length = X.length + 1 := by
      rw [hline]; rfl
    simp only [process_data_line, if_neg hne]
    rw [if_neg (by omega)]
    rw [hline]
    rfl

/-- Witness for C7 at concrete inputs: in DATA state with an empty buffer
and limit 100, the wire line `..X` is stored as `.X` + CRLF. -/
theorem C7_process_data_line_spec_witness :
    process_data_line 100 true ⟨.DATA, Envelope.clear, []⟩ "..X".toList =
      (⟨.DATA, Envelope.clear, ".X\r\n".toList⟩, none) := by
  have h := (C7_process_data_line_spec 100 true ⟨.DATA, Envelope.clear, []⟩
    "..X".toList rfl).2.2.2.2 ['X'] (by decide) (by decide)
  simpa using h

/-! ## Theorems: claim C6 (SMTP address parsing) -/

lemma idxOfP_some {p : Char → Bool} {l : List Char} {i : Nat}
    (h : idxOfP p l = some i) :
    ∃ hi : i < l.length,
      p (l.get ⟨i, hi⟩) = true ∧ ∀ c ∈ l.take i, p c = false := by
  induction l generalizing i with
  | nil => simp [idxOfP] at h
  | cons c rest ih =>
    by_cases hc : p c
    · simp only [idxOfP, if_pos hc, Option.some.injEq] at h
      subst h
      exact ⟨by simp, by simpa using hc, by simp⟩
    · simp only [idxOfP, if_neg hc, Option.map_eq_some'] at h
      obtain ⟨j, hj, rfl⟩ := h
      obtain ⟨hlt, hp, hall⟩ := ih hj
      refine ⟨by simpa using Nat.succ_lt_succ hlt, by simpa using hp, ?_⟩
      intro a ha
      rcases (by simpa using ha : a = c ∨ a ∈ rest.take j) with rfl | ha'
      · simpa using hc
      · exact hall a ha'

lemma split_at_idx {l : List Char} {i : Nat} (hi : i < l.length) :
    l = l.take i ++ l.get ⟨i, hi⟩ :: l.drop (i + 1) := by
  conv_lhs => rw [← List.take_append_drop i l]
  congr 1
  simpa using List.drop_eq_getElem_cons hi

/-- C6 counterexample: `<a@b@c>` strips to `a@b@c`, which contains two
`'@'` characters, yet `EmailAddress::parse` accepts it — the code only
constrains the position of the *first* `'@'` — refuting the claim that an
address parses successfully only when it contains exactly one `'@'`. -/
theorem C6_parse_counterexample :
    EmailAddress.parse "<a@b@c>" =
      some ⟨['a'], ['b', '@', 'c'], ['a', '@', 'b', '@', 'c']⟩ ∧
    countChar '@' (trimSpTab (stripAngles "<a@b@c>".toList)) = 2 := by
  constructor <;> decide

/-- C6 (amended): after stripping angle brackets and trimming whitespace,
the empty string yields the null sender; a non-empty string parses
successfully iff its *first* `'@'` sits strictly between the first and
last position; on success the local part is everything before that first
`'@'` (non-empty, containing no `'@'`) and the domain is everything after
it (non-empty, but possibly containing further `'@'` characters); in
particular `<user@>` and `<@dom>` fail to parse. -/
theorem C6_parse_amended (str : List Char) :
    (trimSpTab (stripAngles str) = [] → parseEmail str = some ⟨[], [], []⟩) ∧
    ((parseEmail str).isSome = true ↔
      (trimSpTab (stripAngles str) = [] ∨
       ∃ i, idxOfP (· == '@') (trimSpTab (stripAngles str)) = some i ∧
         0 < i ∧ i + 1 < (trimSpTab (stripAngles str)).length)) ∧
    (∀ a, parseEmail str = some a → trimSpTab (stripAngles str) ≠ [] →
       a.local_part ≠ [] ∧ a.domain ≠ [] ∧
       a.local_part ++ '@' :: a.domain = trimSpTab (stripAngles str) ∧
       '@' ∉ a.local_part) ∧
    EmailAddress.parse "<user@>" = none ∧
    EmailAddress.parse "<@dom>" = none := by
  refine ⟨?_, ?_, ?_, by decide, by decide⟩
  · intro hempty
    simp [parseEmail, hempty, idxOfP]
  · simp only [parseEmail]
    rcases h : idxOfP (· == '@') (trimSpTab (stripAngles str)) with _ | i
    · simp only [h]
      by_cases hempty : trimSpTab (stripAngles str) = []
      · simp [hempty, h]
      · simp [List.isEmpty_iff, hempty, h]
    · simp only [h]
      obtain ⟨hi, hp, hall⟩ := idxOfP_some h
      have hne : trimSpTab (stripAngles str) ≠ [] := by
        intro hEq
        rw [hEq] at hi
        exact absurd hi (by simp)
      have hnemp : (trimSpTab (stripAngles str)).isEmpty = false := by
        simpa [List.isEmpty_iff] using hne
      by_cases hcond : (i == 0 || i == (trimSpTab (stripAngles str)).length - 1) = true
      · rw [if_pos hcond, hnemp]
        simp only [Bool.false_eq_true, if_false, Option.isSome_none, false_iff]
        rintro (hA | ⟨j, hj, h0, h1⟩)
        · exact hne hA
        · obtain rfl : i = j := by simpa using hj
          simp only [Bool.or_eq_true, beq_iff_eq] at hcond
          rcases hcond with rfl | hlast
          · omega
          · omega
      · rw [if_neg hcond]
        simp only [Option.isSome_some, true_iff]
        right
        refine ⟨i, rfl, ?_, ?_⟩ <;>
          (simp only [Bool.or_eq_true, beq_iff_eq, not_or] at hcond; omega)
  · intro a hparse hne
    simp only [parseEmail] at hparse
    have hnemp : (trimSpTab (stripAngles str)).isEmpty = false := by
      simpa [List.isEmpty_iff] using hne
    rcases h : idxOfP (· == '@') (trimSpTab (stripAngles str)) with _ | i
    · simp only [h, hnemp] at hparse
      simp at hparse
    · simp only [h] at hparse
      obtain ⟨hi, hp, hall⟩ := idxOfP_some h
      by_cases hcond : (i == 0 || i == (trimSpTab (stripAngles str)).length - 1) = true
      · rw [if_pos hcond, hnemp] at hparse
        simp at hparse
      · rw [if_neg hcond] at hparse
        simp only [Option.some.injEq] at hparse
        subst hparse
        simp only [Bool.or_eq_true, beq_iff_eq, not_or] at hcond
        have h0 : 0 < i := by omega
        have hlast : i + 1 < (trimSpTab (stripAngles str)).length := by omega
        refine ⟨?_, ?_, ?_, ?_⟩
        · intro hEq
          rcases List.take_eq_nil_iff.mp hEq with h' | h'
          · omega
          · exact hne h'
        · intro hEq
          have := List.drop_eq_nil_iff.mp hEq
          omega
        · have hchar : (trimSpTab (stripAngles str)).get ⟨i, hi⟩ = '@' := by
            simpa using hp
          have := split_at_idx hi
          rw [hchar] at this
          exact this.symm
        · intro hmem
          have := hall '@' hmem
          simp at this

/-- Witness for C6 at concrete inputs: `<>` parses to the null sender and
`u@d` parses successfully. -/
theorem C6_parse_amended_witness :
    parseEmail "<>".toList = some ⟨[], [], []⟩ ∧
    (parseEmail "u@d".toList).isSome = true := by
  refine ⟨(C6_parse_amended "<>".toList).1 (by decide), ?_⟩
  exact (C6_parse_amended "u@d".toList).2.1.mpr
    (Or.inr ⟨1, by decide, by decide, by decide⟩)

/-! ## Line session runtime (`Session`, common/src/net/session.cpp) -/

/-- The parts of the base `Session` state on the read path: the
`asio::streambuf read_buffer_` contents (bytes received but not yet
consumed) and the `is_tls_` discriminator of the socket variant. -/
structure RuntimeState where
  buffer : List Char
  isTls : Bool
  deriving DecidableEq, Repr

/-- Embeds `std::getline` on the streambuf (session.cpp:184-186): consume up to
and including the first `'\n'`; the extracted line excludes it.  Without a
`'\n'` the whole buffer is consumed. -/
def splitAtNewline : List Char → List Char × List Char
  | [] => ([], [])
  | '\n' :: rest => ([], rest)
  | c :: rest =>
      let r := splitAtNewline rest
      (c :: r.1, r.2)

/-- session.cpp:188-191: drop a trailing `'\r'` from the extracted line. -/
def stripCR (l : List Char) : List Char :=
  if l.getLast? = some '\r' then l.dropLast else l

/-- The line-extraction step of `Session::handle_read`
(session.cpp:178-200): `std::getline`, then CR-strip; returns the line
passed to `on_line` and the bytes remaining in `read_buffer_`. -/
def extractLine (buf : List Char) : List Char × List Char :=
  let r := splitAtNewline buf
  (stripCR r.1, r.2)

/-- Embeds `Session::start_tls` (session.cpp:274-292): when not already TLS, move
the plain socket into an SSL stream over the same TCP connection, set
`is_tls_`, and begin the server-role handshake.  The `read_buffer_` member
is left untouched: no statement of the function clears or consumes it. -/
def start_tls (st : RuntimeState) : RuntimeState :=
  if st.isTls then st else { st with isTls := true }

/-- The completion condition of
`asio::async_read_until(socket, read_buffer_, "\r\n", …)`: already
satisfied — without reading the socket — whenever the buffer holds a
`"\r\n"`. -/
def hasCRLF : List Char → Bool
  | '\r' :: '\n' :: _ => true
  | _ :: rest => hasCRLF rest
  | [] => false

/-- The line the runtime will deliver next without any socket read: when
`read_buffer_` already contains a CRLF, the next `async_read_until`
completes immediately from the buffered plaintext and `handle_read`
extracts the line from it. -/
def nextBufferedLine (st : RuntimeState) : Option (List Char) :=
  if hasCRLF st.buffer then some (extractLine st.buffer).1 else none

/-- One pipelined client TCP write arriving while the session is still
plaintext: `async_read_until` deposits all of it in `read_buffer_`;
`handle_read` extracts the first line and hands it to `on_line`; the
STARTTLS/STLS handlers (imap_commands.cpp:166-190,
smtp_commands.cpp:426-449, pop3_commands.cpp:389-412) send the go-ahead
reply and call `Session::start_tls`; `handle_read` then calls `do_read`
again.  Returns the post-upgrade runtime state, the command line consumed,
and the line the runtime will deliver next after the upgrade. -/
def starttls_pipelined (input : List Char) :
    RuntimeState × List Char × Option (List Char) :=
  let st0 : RuntimeState := { buffer := input, isTls := false }
  let r := extractLine st0.buffer
  let st1 : RuntimeState := { st0 with buffer := r.2 }
  let st2 := start_tls st1
  (st2, r.1, nextBufferedLine st2)

/-! ## Theorems: claim C1 (STARTTLS plaintext-injection guard) -/

/-- C1: the TLS upgrade does NOT discard buffered plaintext.  `start_tls`
leaves `read_buffer_` byte-for-byte unchanged, and on the pipelined input
`STARTTLS\r\nNOOP\r\n` the post-upgrade session still holds `NOOP\r\n`
and delivers the line `NOOP` to the command dispatcher without touching
the TLS stream — the pipelined command IS executed after the handshake,
contrary to the claim and to spec §8 scenario 6. -/
theorem C1_starttls_keeps_buffered_bytes :
    (∀ st : RuntimeState, (start_tls st).buffer = st.buffer) ∧
    starttls_pipelined ("STARTTLS\r\nNOOP\r\n".toList) =
      ({ buffer := "NOOP\r\n".toList, isTls := true },
       "STARTTLS".toList, some ("NOOP".toList)) := by
  constructor
  · intro st
    unfold start_tls
    split <;> rfl
  · decide

/-! ## Outbound SMTP client (`SMTPRelay`, smtp/src/smtp_relay.cpp) -/

/-- Embeds `DeliveryResult` (smtp_relay.hpp:16-21). -/
structure DeliveryResult where
  success : Bool := false
  reply_code : Nat := 0
  reply_message : String := ""
  error : String := ""
  deriving DecidableEq, Repr

/-- Embeds `MXRecord` (smtp_relay.hpp:23-30); `operator<` compares priority. -/
structure MXRecord where
  hostname : String
  priority : Nat
  deriving DecidableEq, Repr

/-- The seven replies a scripted peer returns at the successive steps of
`send_to_server`'s dialogue. -/
structure ServerScript where
  greeting : String
  ehlo : String
  helo : String
  mailFrom : String
  rcptTo : String
  dataCmd : String
  endOfData : String
  deriving DecidableEq, Repr

/-- The observable behavior of one MX host: either some I/O call throws
(connection refused, timeout — the `catch` at smtp_relay.cpp:209-211
stores `e.what()` in `result.error`), or the host answers the dialogue
according to a script. -/
inductive MXBehavior where
  | connException (msg : String)
  | scripted (s : ServerScript)
  deriving DecidableEq, Repr

/-- The digit-prefix parse performed by `std::stoi` on the 3-character
substring: maximal leading digit run; no digits at all throws (`none`). -/
def parseLeadingNat (l : List Char) : Option Nat :=
  let ds := l.takeWhile (·.isDigit)
  if ds.isEmpty then none
  else some (ds.foldl (fun a c => 10 * a + (c.toNat - 48)) 0)

/-- Embeds `SMTPRelay::expect_code` (smtp_relay.cpp:250-261): responses shorter
than three characters fail; otherwise `stoi` of the first three characters
must equal the expected code (a `stoi` exception is caught as `false`). -/
def expect_code (resp : String) (code : Nat) : Bool :=
  if resp.length < 3 then false
  else
    match parseLeadingNat (resp.toList.take 3) with
    | none => false
    | some v => v == code

/-- Embeds `SMTPRelay::send_to_server` (smtp_relay.cpp:120-214) against one
host's behavior: greeting 220; EHLO 250, else HELO 250; MAIL FROM 250;
RCPT TO 250 or 251; DATA 354; end-of-data 250 — each failing check
carries the failing reply text out in `error`; an exception yields
`error = e.what()`; only the final 250 sets `success`. -/
def send_to_server (b : MXBehavior) : DeliveryResult :=
  match b with
  | .connException m => { error := m }
  | .scripted s =>
    if !expect_code s.greeting 220 then
      { error := "Server rejected connection: " ++ s.greeting }
    else if !expect_code s.ehlo 250 && !expect_code s.helo 250 then
      { error := "HELO rejected: " ++ s.helo }
    else if !expect_code s.mailFrom 250 then
      { error := "MAIL FROM rejected: " ++ s.mailFrom }
    else if !(expect_code s.rcptTo 250 || expect_code s.rcptTo 251) then
      { error := "RCPT TO rejected: " ++ s.rcptTo }
    else if !expect_code s.dataCmd 354 then
      { error := "DATA rejected: " ++ s.dataCmd }
    else if !expect_code s.endOfData 250 then
      { error := "Message rejected: " ++ s.endOfData }
    else { success := true, reply_code := 250, reply_message := "Message delivered" }

/-- The `std::sort` by `MXRecord::operator<` in `lookup_mx`
(smtp_relay.cpp:115): records ordered by non-decreasing priority. -/
def sortMX (l : List MXRecord) : List MXRecord :=
  l.insertionSort (fun a b => a.priority ≤ b.priority)

/-- The MX loop of `deliver_remote` (smtp_relay.cpp:66-71): try each host
in turn, stop at the first success, and otherwise carry the result of the
LAST attempt out (each iteration overwrites `result`). -/
def tryMX (beh : String → MXBehavior) :
    List MXRecord → DeliveryResult → DeliveryResult
  | [], r => r
  | m :: rest, _ =>
      let r := send_to_server (beh m.hostname)
      if r.success then r else tryMX beh rest r

/-- Embeds `SMTPRelay::deliver_remote` (smtp_relay.cpp:44-74): take the domain
after the first `'@'` of the recipient (no `'@'` fails with "Invalid
recipient address"); `lookup_mx` returns the DNS MX records sorted by
priority; when the lookup is empty, synthesize the single implicit record
`(domain, 0)`; then run the MX loop starting from a default result. -/
def deliver_remote (recipient : String) (mxRaw : List MXRecord)
    (beh : String → MXBehavior) : DeliveryResult :=
  match idxOfP (· == '@') recipient.toList with
  | none => { error := "Invalid recipient address" }
  | some i =>
      let domain : String := ⟨recipient.toList.drop (i + 1)⟩
      let mxs := sortMX mxRaw
      let mxs := if mxs.isEmpty then [⟨domain, 0⟩] else mxs
      tryMX beh mxs {}

/-! ## Theorems: claim C5 (MX iteration and failure handling) -/

instance : IsTotal MXRecord (fun a b => a.priority ≤ b.priority) :=
  ⟨fun a b => Nat.le_total a.priority b.priority⟩

instance : IsTrans MXRecord (fun a b => a.priority ≤ b.priority) :=
  ⟨fun _ _ _ h1 h2 => Nat.le_trans h1 h2⟩

lemma tryMX_characterization (beh : String → MXBehavior) (mxs : List MXRecord)
    (r0 : DeliveryResult) :
    tryMX beh mxs r0 =
      match (mxs.map (fun m => send_to_server (beh m.hostname))).find? (·.success) with
      | some r => r
      | none => (mxs.map (fun m => send_to_server (beh m.hostname))).getLastD r0 := by
  induction mxs generalizing r0 with
  | nil => rfl
  | cons m rest ih =>
    simp only [tryMX, List.map_cons, List.find?_cons]
    by_cases hs : (send_to_server (beh m.hostname)).success = true
    · simp [hs]
    · simp only [Bool.not_eq_true] at hs
      simp only [hs, if_false, List.getLastD_cons, Bool.false_eq_true]
      exact ih _

lemma tryMX_singleton (beh : String → MXBehavior) (m : MXRecord)
    (r0 : DeliveryResult) :
    tryMX beh [m] r0 = send_to_server (beh m.hostname) := by
  simp only [tryMX]
  split <;> rfl

lemma send_to_server_scripted_success (s : ServerScript) :
    (send_to_server (.scripted s)).success = true ↔
      (expect_code s.greeting 220 = true ∧
       (expect_code s.ehlo 250 = true ∨ expect_code s.helo 250 = true) ∧
       expect_code s.mailFrom 250 = true ∧
       (expect_code s.rcptTo 250 = true ∨ expect_code s.rcptTo 251 = true) ∧
       expect_code s.dataCmd 354 = true ∧
       expect_code s.endOfData 250 = true) := by
  simp only [send_to_server]
  split_ifs with h1 h2 h3 h4 h5 h6 <;>
    simp_all [Bool.not_eq_true, Bool.and_eq_true, Bool.or_eq_true]
  constructor
  · rcases Bool.eq_false_or_eq_true (expect_code s.ehlo 250) with h | h
    · exact Or.inl h
    · exact Or.inr (h2 h)
  · rcases Bool.eq_false_or_eq_true (expect_code s.rcptTo 250) with h | h
    · exact Or.inl h
    · exact Or.inr (h4 h)

/-- C5 counterexample: two MX hosts; the first one rejects MAIL FROM with
a 550 (no exception is thrown), the second accepts the message.  The code
moves on to the second host and reports overall success, whereas the claim
says a non-exception rejection's failing reply text is carried out as the
result. -/
theorem C5_deliver_remote_counterexample :
    (deliver_remote "u@example.org" [⟨"mx1", 5⟩, ⟨"mx2", 10⟩]
      (fun h => if h == "mx1" then
          .scripted ⟨"220 ok", "250 ok", "250 ok", "550 no", "250 ok", "354 go", "250 ok"⟩
        else
          .scripted ⟨"220 ok", "250 ok", "250 ok", "250 ok", "250 ok", "354 go", "250 ok"⟩)) =
      { success := true, reply_code := 250, reply_message := "Message delivered",
        error := "" } ∧
    send_to_server
      (.scripted ⟨"220 ok", "250 ok", "250 ok", "550 no", "250 ok", "354 go", "250 ok"⟩) =
      { success := false, reply_code := 0, reply_message := "",
        error := "MAIL FROM rejected: 550 no" } := by
  constructor <;> decide

/-- C5 (amended): the relay iterates the MX hosts sorted by priority
(synthesizing the implicit `(domain, 0)` record when the lookup returns no
records); it moves on to the next MX on ANY per-host failure — SMTP
rejection and connection-level exception alike — the overall result being
the first successful attempt, or else the LAST attempt's result (so only
the last host's failing reply text survives); per host, success is
reported exactly when every dialogue step is accepted and the reply to the
end-of-data terminator has code 250, and an exception yields a failure
carrying `e.what()`. -/
theorem C5_deliver_remote_amended :
    (∀ l : List MXRecord,
      List.Sorted (fun a b : MXRecord => a.priority ≤ b.priority) (sortMX l) ∧
      (sortMX l).Perm l) ∧
    (∀ (recipient : String) (mxRaw : List MXRecord) (beh : String → MXBehavior)
        (i : Nat), idxOfP (· == '@') recipient.toList = some i →
      (mxRaw = [] →
        deliver_remote recipient mxRaw beh =
          send_to_server (beh (⟨recipient.toList.drop (i + 1)⟩ : String))) ∧
      (mxRaw ≠ [] →
        deliver_remote recipient mxRaw beh = tryMX beh (sortMX mxRaw) {})) ∧
    (∀ beh mxs r0, tryMX beh mxs r0 =
      match (mxs.map (fun m => send_to_server (beh m.hostname))).find? (·.success) with
      | some r => r
      | none => (mxs.map (fun m => send_to_server (beh m.hostname))).getLastD r0) ∧
    (∀ m, send_to_server (.connException m) =
      { success := false, reply_code := 0, reply_message := "", error := m }) ∧
    (∀ s, (send_to_server (.scripted s)).success = true ↔
      (expect_code s.greeting 220 = true ∧
       (expect_code s.ehlo 250 = true ∨ expect_code s.helo 250 = true) ∧
       expect_code s.mailFrom 250 = true ∧
       (expect_code s.rcptTo 250 = true ∨ expect_code s.rcptTo 251 = true) ∧
       expect_code s.dataCmd 354 = true ∧
       expect_code s.endOfData 250 = true)) := by
  refine ⟨?_, ?_, tryMX_characterization, fun m => rfl, send_to_server_scripted_success⟩
  · intro l
    exact ⟨List.sorted_insertionSort _ l, List.perm_insertionSort _ l⟩
  · intro recipient mxRaw beh i hidx
    constructor
    · intro hnil
      subst hnil
      have hs : sortMX ([] : List MXRecord) = [] := rfl
      simp only [deliver_remote, hidx, hs, List.isEmpty_nil, if_true, tryMX_singleton]
    · intro hne
      have hlen : (sortMX mxRaw).length = mxRaw.length :=
        (List.perm_insertionSort _ mxRaw).length_eq
      have hsne : (sortMX mxRaw).isEmpty = false := by
        rcases hmx : sortMX mxRaw with _ | ⟨a, rest⟩
        · rw [hmx] at hlen
          exact absurd (List.length_eq_zero.mp hlen.symm) hne
        · rfl
      simp only [deliver_remote, hidx, hsne, Bool.false_eq_true, if_false]

/-- Witness for C5 at concrete inputs: a recipient with an `'@'` and an
empty MX lookup falls back to the implicit record and returns that single
host's result. -/
theorem C5_deliver_remote_amended_witness :
    deliver_remote "u@d" [] (fun _ => .connException "refused") =
      { success := false, reply_code := 0, reply_message := "",
        error := "refused" } := by
  have h := ((C5_deliver_remote_amended.2.1 "u@d" []
    (fun _ => .connException "refused") 1 (by decide)).1 rfl)
  rw [h]
  rfl

/-! ## IMAP session core (imap_session.cpp, imap_commands.cpp) -/

/-- Embeds `CachedMessage` (imap_session.hpp:34-41): sequence number, session
UID, maildir unique id, size, IMAP flag set, internal date (mtime). -/
structure CachedMessage where
  seq : Nat
  uid : Nat
  uniqueId : Nat
  size : Nat
  flags : List String
  internalDate : Nat
  deriving DecidableEq, Repr

/-- Embeds `IMAPSession::maildir_to_imap_flags` (imap_session.cpp:365-379). -/
def maildir_to_imap_flags (flags : List Char) : List String :=
  flags.filterMap (fun c =>
    if c == 'S' then some "\\Seen"
    else if c == 'R' then some "\\Answered"
    else if c == 'F' then some "\\Flagged"
    else if c == 'T' then some "\\Deleted"
    else if c == 'D' then some "\\Draft"
    else none)

/-- The loop of `IMAPSession::load_messages` (imap_session.cpp:131-162):
assign sequence numbers from `seq` upward and UIDs from the session
counter `next_uid_` upward over the `list_messages` result; messages in
`new/` additionally carry `\Recent` in the in-memory flag set. -/
def loadFrom (seq uid : Nat) : List MdMessage → List CachedMessage × Nat
  | [] => ([], uid)
  | m :: rest =>
      let flags := maildir_to_imap_flags m.flags ++
        (if m.isNew then ["\\Recent"] else [])
      let r := loadFrom (seq + 1) (uid + 1) rest
      (⟨seq, uid, m.uniqueId, m.size, flags, m.mtime⟩ :: r.1, r.2)

/-- Embeds `IMAPSession::load_messages`: rebuild the cache from
`maildir_->list_messages`, numbering from 1, with UIDs continuing from the
current `next_uid_`; returns the cache and the advanced counter. -/
def load_messages (md : List MdMessage) (nextUid : Nat) :
    List CachedMessage × Nat :=
  loadFrom 1 nextUid md

/-- Embeds `IMAPSession::get_sequence_for_uid` (imap_session.cpp:360-363): look
the UID up in the `uid_to_seq_` map that `load_messages` populated;
0 when the UID is unknown. -/
def get_sequence_for_uid (msgs : List CachedMessage) (uid : Nat) : Nat :=
  match msgs.find? (fun m => m.uid == uid) with
  | some m => m.seq
  | none => 0

/-- Ordered insertion into a `std::set<char>` (ascending, no
duplicates). -/
def insertChar (c : Char) : List Char → List Char
  | [] => [c]
  | x :: xs =>
      if c < x then c :: x :: xs
      else if c == x then x :: xs
      else x :: insertChar c xs

/-- Embeds `Maildir::add_flags` (maildir.cpp:516-526) composed with `set_flags`
(maildir.cpp:490-514): the message with the given unique id gets the union
of its existing flags and `fs` in its renamed filename, and a `new/`
message is first moved into `cur/`. -/
def add_flags_md (uid : Nat) (fs : List Char) (md : List MdMessage) :
    List MdMessage :=
  md.map (fun m =>
    if m.uniqueId == uid then
      { m with flags := fs.foldl (fun acc c => insertChar c acc) m.flags,
               isNew := false }
    else m)

/-- Embeds `Maildir::mark_as_seen` (maildir.cpp:542-544): `add_flags(id, {'S'})`. -/
def mark_as_seen (uid : Nat) (md : List MdMessage) : List MdMessage :=
  add_flags_md uid ['S'] md

/-- The fetch item kinds of `FetchItem::Type` that `handle_fetch` acts on;
`other` stands for the kinds handled by its `default:` arm. -/
inductive FetchItemType where
  | FLAGS | UID | RFC822_SIZE | INTERNALDATE | RFC822 | BODY | BODY_PEEK
  | RFC822_HEADER | other
  deriving DecidableEq, Repr

/-- Embeds `IMAPParser::format_flags` (imap_parser.cpp:375-387): the flags joined
by single spaces inside parentheses. -/
def format_flags (flags : List String) : String :=
  "(" ++ String.intercalate " " flags ++ ")"

/-- IMAP `response::ok` (imap_commands.hpp:100-102). -/
def imap_ok (tag msg : String) : String := tag ++ " OK " ++ msg

/-- IMAP `response::untagged` (imap_commands.hpp:112-114). -/
def imap_untagged (data : String) : String := "* " ++ data

/-- Whether `pat` begins the second list (character-wise). -/
def leadsWith : List Char → List Char → Bool
  | [], _ => true
  | _ :: _, [] => false
  | p :: ps, c :: cs => p == c && leadsWith ps cs

/-- Embeds `std::string::find` of a substring: index of the first occurrence. -/
def findSub (pat : List Char) : List Char → Option Nat
  | [] => if pat.isEmpty then some 0 else none
  | c :: rest =>
      if leadsWith pat (c :: rest) then some 0
      else (findSub pat rest).map (· + 1)

/-- Embeds `Maildir::get_message_headers` (maildir.cpp:343-361): the prefix up to
the first `"\r\n\r\n"`, else up to the first `"\n\n"`, else the whole
content. -/
def get_message_headers (content : String) : String :=
  match findSub "\r\n\r\n".toList content.toList with
  | some pos => ⟨content.toList.take pos⟩
  | none =>
      match findSub "\n\n".toList content.toList with
      | some pos => ⟨content.toList.take pos⟩
      | none => content

/-- The text one fetch item contributes inside `FETCH (…)`
(imap_commands.cpp:529-565); an item whose content guard fails, or one in
the `default:` arm, contributes nothing — but still consumes a separator
slot, exactly as the `first` flag in the source does. -/
def fetch_item_text (fmtDate : Nat → String) (content : Option String)
    (msg : CachedMessage) : FetchItemType → String
  | .FLAGS => "FLAGS " ++ format_flags msg.flags
  | .UID => "UID " ++ toString msg.uid
  | .RFC822_SIZE => "RFC822.SIZE " ++ toString msg.size
  | .INTERNALDATE => "INTERNALDATE " ++ fmtDate msg.internalDate
  | .RFC822 | .BODY | .BODY_PEEK =>
      match content with
      | some c => "BODY[] \x7b" ++ toString c.length ++ "\x7d\r\n" ++ c
      | none => ""
  | .RFC822_HEADER =>
      match content with
      | some c =>
          let h := get_message_headers c
          "RFC822.HEADER \x7b" ++ toString h.length ++ "\x7d\r\n" ++ h
      | none => ""
  | .other => ""

/-- The session + store state the FETCH and UID handlers can see: the
message cache and the on-disk mailbox. -/
structure IMAPSessionSt where
  msgs : List CachedMessage
  md : List MdMessage
  deriving DecidableEq, Repr

/-- Embeds `CommandHandler::handle_fetch` (imap_commands.cpp:500-573): for every
cached message whose SEQUENCE NUMBER is in the parsed set, emit one
untagged `<seq> FETCH (…)` response assembled from the requested items,
then the tagged OK.  Content is read through
`IMAPSession::get_message_content` → `Maildir::get_message_content`
(`content` maps unique ids to file bytes; both readers are free of
mutation), and no statement of the handler writes the flag cache or the
store — the state comes back unchanged. -/
def handle_fetch (fmtDate : Nat → String) (content : Nat → Option String)
    (inSet : Nat → Bool) (items : List FetchItemType) (tag : String)
    (st : IMAPSessionSt) : List String × IMAPSessionSt :=
  ((st.msgs.filter (fun m => inSet m.seq)).map (fun m =>
      imap_untagged (toString m.seq ++ " FETCH (" ++
        String.intercalate " "
          (items.map (fetch_item_text fmtDate (content m.uniqueId) m)) ++ ")")) ++
    [imap_ok tag "FETCH completed"], st)

/-- Embeds `CommandHandler::handle_uid` (imap_commands.cpp:667-708) for the
`UID FETCH` subcommand: the wrapped command is rebuilt from the SAME
argument text and handed to the base handler unchanged
("For simplicity, delegate to regular handlers", imap_commands.cpp:703) —
the set is NOT mapped through `uid_to_seq_` and no `UID` item is added. -/
def handle_uid_fetch (fmtDate : Nat → String) (content : Nat → Option String)
    (inSet : Nat → Bool) (items : List FetchItemType) (tag : String)
    (st : IMAPSessionSt) : List String × IMAPSessionSt :=
  handle_fetch fmtDate content inSet items tag st

/-! ## Theorems: claim C3 (FETCH BODY and `\Seen`) -/

/-- C3: a FETCH of BODY[] does NOT add `\Seen` — `handle_fetch` mutates
nothing for any item list, and its `RFC822`, `BODY` and `BODY_PEEK` arms
are literally the same case (imap_commands.cpp:546-548).  Evaluated at a
concrete unseen message: the session and store after a `BODY` fetch are
unchanged and the whole outcome equals that of a `BODY.PEEK` fetch;
meanwhile the store primitive the spec expects (`Maildir::mark_as_seen`,
never called from the FETCH path) would have added `'S'` — exactly once,
idempotently. -/
theorem C3_fetch_body_leaves_flags_unchanged :
    (∀ fmtDate content inSet items tag st,
      (handle_fetch fmtDate content inSet items tag st).2 = st) ∧
    (handle_fetch (fun _ => "") (fun u => if u == 7 then some "AB\r\n\r\nC" else none)
        (fun n => n == 1) [.BODY] "A"
        ⟨[⟨1, 1, 7, 7, [], 3⟩], [⟨7, 7, [], true, 3⟩]⟩ =
      (["* 1 FETCH (BODY[] \x7b7\x7d\r\nAB\r\n\r\nC)",
        "A OK FETCH completed"],
       ⟨[⟨1, 1, 7, 7, [], 3⟩], [⟨7, 7, [], true, 3⟩]⟩)) ∧
    (handle_fetch (fun _ => "") (fun u => if u == 7 then some "AB\r\n\r\nC" else none)
        (fun n => n == 1) [.BODY] "A"
        ⟨[⟨1, 1, 7, 7, [], 3⟩], [⟨7, 7, [], true, 3⟩]⟩ =
      handle_fetch (fun _ => "") (fun u => if u == 7 then some "AB\r\n\r\nC" else none)
        (fun n => n == 1) [.BODY_PEEK] "A"
        ⟨[⟨1, 1, 7, 7, [], 3⟩], [⟨7, 7, [], true, 3⟩]⟩) ∧
    mark_as_seen 7 [⟨7, 7, [], true, 3⟩] = [⟨7, 7, ['S'], false, 3⟩] ∧
    mark_as_seen 7 (mark_as_seen 7 [⟨7, 7, [], true, 3⟩]) =
      mark_as_seen 7 [⟨7, 7, [], true, 3⟩] := by
  refine ⟨fun _ _ _ _ _ _ => rfl, by decide, by decide, by decide, by decide⟩

/-! ## Theorems: claim C4 (UID FETCH/STORE/COPY mapping) -/

/-- C4: the `UID` subcommands do NOT map the supplied set through
`uid_to_seq` — `handle_uid` delegates to the base handler with identical
arguments, so the set is matched against SEQUENCE numbers, and no `UID`
item is forced into FETCH responses.  On a session whose messages carry
sequence numbers 1,2 and UIDs 4,5 (as after an expunge-reload):
`UID FETCH 4 (FLAGS)` produces no untagged response at all although the
message with UID 4 exists at sequence 1, and `UID FETCH 1 (FLAGS)`
fetches the message at sequence 1 — whose UID is 4, not 1 — with no UID
item in the response. -/
theorem C4_uid_fetch_not_mapped :
    (∀ fmtDate content inSet items tag st,
      handle_uid_fetch fmtDate content inSet items tag st =
        handle_fetch fmtDate content inSet items tag st) ∧
    (handle_uid_fetch (fun _ => "") (fun _ => none) (fun n => n == 4) [.FLAGS] "A"
        ⟨[⟨1, 4, 7, 10, [], 0⟩, ⟨2, 5, 8, 20, [], 0⟩], []⟩).1 =
      ["A OK FETCH completed"] ∧
    get_sequence_for_uid [⟨1, 4, 7, 10, [], 0⟩, ⟨2, 5, 8, 20, [], 0⟩] 4 = 1 ∧
    (handle_uid_fetch (fun _ => "") (fun _ => none) (fun n => n == 1) [.FLAGS] "A"
        ⟨[⟨1, 4, 7, 10, [], 0⟩, ⟨2, 5, 8, 20, [], 0⟩], []⟩).1 =
      ["* 1 FETCH (FLAGS ())", "A OK FETCH completed"] := by
  refine ⟨fun _ _ _ _ _ _ => rfl, by decide, by decide, by decide⟩

/-! ## IMAP EXPUNGE (`IMAPSession::expunge`, imap_session.cpp:325-353) -/

/-- Whether a cached message carries `\Deleted`
(`messages_[i].flags.count("\\Deleted")`). -/
def hasDeleted (m : CachedMessage) : Bool := m.flags.contains "\\Deleted"

/-- Whether a maildir message file carries the `T` flag. -/
def hasT (m : MdMessage) : Bool := m.flags.contains 'T'

/-- Embeds `Maildir::delete_message` (maildir.cpp:441-454): unlink the message
file found for the unique id — with ids pairwise distinct, remove the
first list entry bearing it. -/
def delete_message (uid : Nat) : List MdMessage → List MdMessage
  | [] => []
  | m :: rest =>
      if m.uniqueId == uid then rest else m :: delete_message uid rest

/-- Embeds `IMAPSession::expunge` (imap_session.cpp:325-353): collect the 0-based
indices of the cached messages carrying `\Deleted` in ascending order,
walk them in REVERSE (descending) order deleting each from the store by
the cached unique id and pushing its 1-based sequence number, reload the
cache from the store with the current session UID counter
(`load_messages`), and finally reverse the collected sequence numbers so
the emitted `* <seq> EXPUNGE` responses come out ascending.  Returns
(emitted sequence numbers, new store, new cache, new counter). -/
def expunge (msgs : List CachedMessage) (md : List MdMessage) (u : Nat) :
    List Nat × List MdMessage × List CachedMessage × Nat :=
  let delPairs := msgs.enum.filter (fun p => hasDeleted p.2)
  let md1 := delPairs.reverse.foldl
    (fun acc p => delete_message p.2.uniqueId acc) md
  let seqsDesc := delPairs.reverse.map (fun p => p.1 + 1)
  let r := load_messages md1 u
  (seqsDesc.reverse, md1, r.1, r.2)

/-! ## Theorems: claim C2 (EXPUNGE) — helper lemmas -/

/-- Filtering an enumeration on the payload and discarding the indices is
filtering the underlying list. -/
lemma enumFrom_filter_map_snd {α : Type} (p : α → Bool) :
    ∀ (k : Nat) (l : List α),
      ((List.enumFrom k l).filter (fun q => p q.2)).map (fun q => q.2) =
        l.filter p := by
  intro k l
  induction l generalizing k with
  | nil => rfl
  | cons a rest ih =>
    simp only [List.enumFrom, List.filter_cons]
    by_cases hp : p a
    · simp [hp, ih (k + 1)]
    · simp [hp, ih (k + 1)]

/-- Enumerations have strictly increasing indices. -/
lemma pairwise_fst_lt_enumFrom {α : Type} :
    ∀ (k : Nat) (l : List α),
      (List.enumFrom k l).Pairwise (fun a b => a.1 < b.1) := by
  intro k l
  induction l generalizing k with
  | nil => exact List.Pairwise.nil
  | cons a rest ih =>
    refine List.Pairwise.cons ?_ (ih (k + 1))
    intro q hq
    rcases q with ⟨i, x⟩
    have := List.mem_enumFrom hq
    omega

/-- The unique ids of the `\Deleted` scan over the cache equal those of
the `T`-flag scan over the store, whenever cache and store agree on ids
and deletion flags entry by entry. -/
lemma expunge_bridge_ids {msgs : List CachedMessage} {md : List MdMessage}
    (hcoh : List.Forall₂
      (fun c m => c.uniqueId = m.uniqueId ∧ hasDeleted c = hasT m) msgs md) :
    ∀ k : Nat,
      ((List.enumFrom k msgs).filter (fun p => hasDeleted p.2)).map
          (fun p => p.2.uniqueId) =
        ((List.enumFrom k md).filter (fun p => hasT p.2)).map
          (fun p => p.2.uniqueId) := by
  induction hcoh with
  | nil => intro k; rfl
  | @cons c m cs ms hcm _ ih =>
    intro k
    simp only [List.enumFrom, List.filter_cons]
    rw [← hcm.2]
    by_cases hd : hasDeleted c
    · simp [hd, hcm.1, ih (k + 1)]
    · simp [hd, ih (k + 1)]

/-- Likewise for the collected (index + 1) sequence numbers. -/
lemma expunge_bridge_seqs {msgs : List CachedMessage} {md : List MdMessage}
    (hcoh : List.Forall₂
      (fun c m => c.uniqueId = m.uniqueId ∧ hasDeleted c = hasT m) msgs md) :
    ∀ k : Nat,
      ((List.enumFrom k msgs).filter (fun p => hasDeleted p.2)).map
          (fun p => p.1 + 1) =
        ((List.enumFrom k md).filter (fun p => hasT p.2)).map
          (fun p => p.1 + 1) := by
  induction hcoh with
  | nil => intro k; rfl
  | @cons c m cs ms hcm _ ih =>
    intro k
    simp only [List.enumFrom, List.filter_cons]
    rw [← hcm.2]
    by_cases hd : hasDeleted c
    · simp [hd, ih (k + 1)]
    · simp [hd, ih (k + 1)]

lemma delete_message_ids_sublist (uid : Nat) :
    ∀ md : List MdMessage, (delete_message uid md).Sublist md := by
  intro md
  induction md with
  | nil => exact List.Sublist.refl []
  | cons m rest ih =>
    simp only [delete_message]
    by_cases hm : m.uniqueId == uid
    · simp only [hm, if_true]
      exact (List.sublist_cons_self m rest)
    · simp only [hm, Bool.false_eq_true, if_false]
      exact List.Sublist.cons₂ m ih

lemma delete_message_nodup {uid : Nat} {md : List MdMessage}
    (hnd : (md.map (fun m => m.uniqueId)).Nodup) :
    ((delete_message uid md).map (fun m => m.uniqueId)).Nodup :=
  List.Nodup.sublist (List.Sublist.map _ (delete_message_ids_sublist uid md)) hnd

/-- Deleting a unique id that belongs to a `T`-flagged entry leaves the
kept (non-`T`) messages untouched. -/
lemma delete_message_filter_not {uid : Nat} : ∀ {md : List MdMessage},
    (md.map (fun m => m.uniqueId)).Nodup →
    uid ∈ (md.filter hasT).map (fun m => m.uniqueId) →
    (delete_message uid md).filter (fun m => !hasT m) =
      md.filter (fun m => !hasT m) := by
  intro md
  induction md with
  | nil => intro _ hmem; simp at hmem
  | cons m0 rest ih =>
    intro hnd hmem
    have hnd' : (rest.map (fun m => m.uniqueId)).Nodup :=
      (List.nodup_cons.mp hnd).2
    have hnotin : m0.uniqueId ∉ rest.map (fun m => m.uniqueId) :=
      (List.nodup_cons.mp hnd).1
    simp only [delete_message]
    by_cases heq : m0.uniqueId == uid
    · have huid : m0.uniqueId = uid := by simpa using heq
      have hT : hasT m0 = true := by
        by_contra hF
        rw [List.filter_cons_of_neg (by simpa using hF)] at hmem
        have : uid ∈ rest.map (fun m => m.uniqueId) := by
          rcases List.mem_map.mp hmem with ⟨m', hm', hid⟩
          exact List.mem_map.mpr ⟨m', List.mem_of_mem_filter hm', hid⟩
        rw [← huid] at this
        exact hnotin this
      simp only [heq, if_true]
      rw [List.filter_cons_of_neg (by simp [hT])]
    · have hne : m0.uniqueId ≠ uid := by simpa using heq
      have hmem' : uid ∈ (rest.filter hasT).map (fun m => m.uniqueId) := by
        by_cases hT : hasT m0
        · rw [List.filter_cons_of_pos hT] at hmem
          rcases List.mem_map.mp hmem with ⟨m', hm', hid⟩
          rcases List.mem_cons.mp hm' with rfl | hm''
          · exact absurd hid hne
          · exact List.mem_map.mpr ⟨m', hm'', hid⟩
        · rwa [List.filter_cons_of_neg (by simpa using hT)] at hmem
      simp only [heq, Bool.false_eq_true, if_false]
      by_cases hT : hasT m0
      · rw [List.filter_cons_of_neg (by simp [hT]),
          List.filter_cons_of_neg (by simp [hT])]
        exact ih hnd' hmem'
      · rw [List.filter_cons_of_pos (by simpa using hT),
          List.filter_cons_of_pos (by simpa using hT)]
        rw [ih hnd' hmem']

/-- Deleting a unique id that belongs to a `T`-flagged entry erases
exactly that id from the `T`-flagged id list. -/
lemma delete_message_filterT_ids {uid : Nat} : ∀ {md : List MdMessage},
    (md.map (fun m => m.uniqueId)).Nodup →
    uid ∈ (md.filter hasT).map (fun m => m.uniqueId) →
    ((delete_message uid md).filter hasT).map (fun m => m.uniqueId) =
      ((md.filter hasT).map (fun m => m.uniqueId)).erase uid := by
  intro md
  induction md with
  | nil => intro _ hmem; simp at hmem
  | cons m0 rest ih =>
    intro hnd hmem
    have hnd' : (rest.map (fun m => m.uniqueId)).Nodup :=
      (List.nodup_cons.mp hnd).2
    have hnotin : m0.uniqueId ∉ rest.map (fun m => m.uniqueId) :=
      (List.nodup_cons.mp hnd).1
    simp only [delete_message]
    by_cases heq : m0.uniqueId == uid
    · have huid : m0.uniqueId = uid := by simpa using heq
      have hT : hasT m0 = true := by
        by_contra hF
        rw [List.filter_cons_of_neg (by simpa using hF)] at hmem
        have : uid ∈ rest.map (fun m => m.uniqueId) := by
          rcases List.mem_map.mp hmem with ⟨m', hm', hid⟩
          exact List.mem_map.mpr ⟨m', List.mem_of_mem_filter hm', hid⟩
        rw [← huid] at this
        exact hnotin this
      simp only [heq, if_true]
      rw [List.filter_cons_of_pos hT]
      simp only [List.map_cons, huid, List.erase_cons_head]
    · have hne : m0.uniqueId ≠ uid := by simpa using heq
      have hmem' : uid ∈ (rest.filter hasT).map (fun m => m.uniqueId) := by
        by_cases hT : hasT m0
        · rw [List.filter_cons_of_pos hT] at hmem
          rcases List.mem_map.mp hmem with ⟨m', hm', hid⟩
          rcases List.mem_cons.mp hm' with rfl | hm''
          · exact absurd hid hne
          · exact List.mem_map.mpr ⟨m', hm'', hid⟩
        · rwa [List.filter_cons_of_neg (by simpa using hT)] at hmem
      simp only [heq, Bool.false_eq_true, if_false]
      by_cases hT : hasT m0
      · rw [List.filter_cons_of_pos hT, List.filter_cons_of_pos hT]
        simp only [List.map_cons]
        rw [List.erase_cons_tail (by simpa using hne), ih hnd' hmem']
      · rw [List.filter_cons_of_neg (by simpa using hT),
          List.filter_cons_of_neg (by simpa using hT)]
        exact ih hnd' hmem'

/-- Folding `delete_message` over any enumeration (in any order) of the
unique ids of the `T`-flagged messages removes exactly those messages. -/
lemma foldl_delete_eq_filter :
    ∀ (L : List Nat) (md : List MdMessage),
      (md.map (fun m => m.uniqueId)).Nodup →
      L.Perm ((md.filter hasT).map (fun m => m.uniqueId)) →
      L.foldl (fun acc uid => delete_message uid acc) md =
        md.filter (fun m => !hasT m) := by
  intro L
  induction L with
  | nil =>
    intro md _ hperm
    have hnil : (md.filter hasT).map (fun m => m.uniqueId) = [] :=
      (hperm.nil_eq).symm
    have hfil : md.filter hasT = [] := List.map_eq_nil_iff.mp hnil
    have hall : ∀ m ∈ md, hasT m = false := by
      intro m hm
      have := List.filter_eq_nil_iff.mp hfil m hm
      simpa using this
    simp only [List.foldl_nil]
    rw [List.filter_eq_self.mpr (fun m hm => by simp [hall m hm])]
  | cons uid rest ih =>
    intro md hnd hperm
    rcases List.cons_perm_iff_perm_erase.mp hperm with ⟨hmem, hperm'⟩
    simp only [List.foldl_cons]
    rw [ih (delete_message uid md) (delete_message_nodup hnd)
      (by rw [delete_message_filterT_ids hnd hmem]; exact hperm'),
      delete_message_filter_not hnd hmem]

instance : Inhabited MdMessage := ⟨⟨0, 0, [], false, 0⟩⟩

instance : Inhabited CachedMessage := ⟨⟨0, 0, 0, 0, [], 0⟩⟩

lemma loadFrom_len : ∀ (md : List MdMessage) (s u : Nat),
    (loadFrom s u md).1.length = md.length := by
  intro md
  induction md with
  | nil => intro s u; rfl
  | cons m rest ih => intro s u; simp [loadFrom, ih]

lemma loadFrom_counter : ∀ (md : List MdMessage) (s u : Nat),
    (loadFrom s u md).2 = u + md.length := by
  intro md
  induction md with
  | nil => intro s u; simp [loadFrom]
  | cons m rest ih =>
    intro s u
    simp only [loadFrom, ih, List.length_cons]
    omega

/-- Every entry of the rebuilt cache: sequence `s + j`, UID `u + j`, and
the maildir message's identity, size, flags and date. -/
lemma loadFrom_get : ∀ (md : List MdMessage) (s u j : Nat), j < md.length →
    (loadFrom s u md).1[j]? =
      some ⟨s + j, u + j, (md.getD j default).uniqueId, (md.getD j default).size,
        maildir_to_imap_flags (md.getD j default).flags ++
          (if (md.getD j default).isNew then ["\\Recent"] else []),
        (md.getD j default).mtime⟩ := by
  intro md
  induction md with
  | nil => intro s u j hj; simp at hj
  | cons m rest ih =>
    intro s u j hj
    cases j with
    | zero => simp [loadFrom]
    | succ j' =>
      have hj' : j' < rest.length := by simpa using Nat.lt_of_succ_lt_succ hj
      have := ih (s + 1) (u + 1) j' hj'
      simp only [loadFrom, List.getElem?_cons_succ, List.getD_cons_succ]
      rw [this]
      congr 2 <;> omega

/-- Position of a kept element inside `filter`: an element at index `i`
not satisfying `p` lands at index `i` minus the number of `p`-elements
before it. -/
lemma filter_not_getElem {α : Type} [Inhabited α] (p : α → Bool) :
    ∀ (l : List α) (i : Nat), i < l.length → p (l.getD i default) = false →
      (l.filter (fun a => !p a))[i - (l.take i).countP p]? =
        some (l.getD i default) := by
  intro l
  induction l with
  | nil => intro i hi; simp at hi
  | cons a rest ih =>
    intro i hi hp
    cases i with
    | zero =>
      simp only [List.getD_cons_zero] at hp ⊢
      simp [List.filter_cons, hp]
    | succ i' =>
      simp only [List.getD_cons_succ] at hp ⊢
      have hi' : i' < rest.length := by simpa using Nat.lt_of_succ_lt_succ hi
      have hcle : (rest.take i').countP p ≤ i' := by
        calc (rest.take i').countP p ≤ (rest.take i').length :=
              List.countP_le_length p
          _ ≤ i' := by simp [List.length_take]
      by_cases hpa : p a
      · rw [List.filter_cons_of_neg (by simp [hpa])]
        have hcount : ((a :: rest).take (i' + 1)).countP p =
            (rest.take i').countP p + 1 := by
          simp [List.take_succ_cons, List.countP_cons, hpa]
        rw [hcount]
        have harith : i' + 1 - ((rest.take i').countP p + 1) =
            i' - (rest.take i').countP p := by omega
        rw [harith]
        exact ih i' hi' hp
      · rw [List.filter_cons_of_pos (by simp [hpa])]
        have hcount : ((a :: rest).take (i' + 1)).countP p =
            (rest.take i').countP p := by
          simp [List.take_succ_cons, List.countP_cons, hpa]
        rw [hcount]
        have harith : i' + 1 - (rest.take i').countP p =
            (i' - (rest.take i').countP p) + 1 := by omega
        rw [harith]
        simp only [List.getElem?_cons_succ]
        exact ih i' hi' hp

/-- C2 counterexample: a two-message mailbox loaded with session counter 1
assigns UIDs 1 and 2 (counter 3); expunging the second message (flagged
`\Deleted` / `T`) unlinks it and emits `* 2 EXPUNGE`, but the reload
assigns the surviving message the FRESH UID 3 — its UID is not unchanged,
refuting the final part of the claim. -/
theorem C2_expunge_counterexample :
    load_messages [⟨1, 10, [], false, 0⟩, ⟨2, 20, ['T'], false, 1⟩] 1 =
      ([⟨1, 1, 1, 10, [], 0⟩, ⟨2, 2, 2, 20, ["\\Deleted"], 1⟩], 3) ∧
    expunge [⟨1, 1, 1, 10, [], 0⟩, ⟨2, 2, 2, 20, ["\\Deleted"], 1⟩]
        [⟨1, 10, [], false, 0⟩, ⟨2, 20, ['T'], false, 1⟩] 3 =
      ([2], [⟨1, 10, [], false, 0⟩], [⟨1, 3, 1, 10, [], 0⟩], 4) := by
  constructor <;> decide

/-- C2 (amended): for a selected mailbox whose cache agrees with the store
entry-by-entry on unique ids and deletion flags (which `load_messages`,
`set_flags` and STORE maintain), and whose unique ids are pairwise
distinct, EXPUNGE (1) unlinks exactly the messages carrying `\Deleted`,
(2) emits their original sequence numbers in ascending order (they were
collected descending and reversed), (3) after the reload each remaining
message originally at sequence `i+1` sits at position
`i − #[deleted below i]` with new sequence `(i+1) − #[deleted below i]`
and its unique id, size, flags and date preserved — but (4) every
reloaded message receives a FRESH UID `u + position` from the session
counter (which advances by the number of remaining messages), rather than
keeping its previous UID. -/
theorem C2_expunge_amended (msgs : List CachedMessage) (md : List MdMessage)
    (u : Nat)
    (hcoh : List.Forall₂
      (fun c m => c.uniqueId = m.uniqueId ∧ hasDeleted c = hasT m) msgs md)
    (hnd : (md.map (fun m => m.uniqueId)).Nodup) :
    (expunge msgs md u).2.1 = md.filter (fun m => !hasT m) ∧
    (expunge msgs md u).1 =
      (md.enum.filter (fun p => hasT p.2)).map (fun p => p.1 + 1) ∧
    (expunge msgs md u).1.Pairwise (· < ·) ∧
    (expunge msgs md u).2.2.2 = u + (md.filter (fun m => !hasT m)).length ∧
    (∀ j, j < (expunge msgs md u).2.2.1.length →
      ((expunge msgs md u).2.2.1.getD j default).uid = u + j) ∧
    (∀ i, i < md.length → hasT (md.getD i default) = false →
      (expunge msgs md u).2.2.1[i - (md.take i).countP hasT]? =
        some ⟨(i + 1) - (md.take i).countP hasT,
              u + (i - (md.take i).countP hasT),
              (md.getD i default).uniqueId, (md.getD i default).size,
              maildir_to_imap_flags (md.getD i default).flags ++
                (if (md.getD i default).isNew then ["\\Recent"] else []),
              (md.getD i default).mtime⟩) := by
  have e1 : (expunge msgs md u).2.1 =
      (msgs.enum.filter (fun p => hasDeleted p.2)).reverse.foldl
        (fun acc p => delete_message p.2.uniqueId acc) md := rfl
  have e0 : (expunge msgs md u).1 =
      ((msgs.enum.filter (fun p => hasDeleted p.2)).reverse.map
        (fun p => p.1 + 1)).reverse := rfl
  have e2 : (expunge msgs md u).2.2.1 =
      (loadFrom 1 u ((expunge msgs md u).2.1)).1 := rfl
  have e3 : (expunge msgs md u).2.2.2 =
      (loadFrom 1 u ((expunge msgs md u).2.1)).2 := rfl
  have hfold : ∀ L : List (Nat × CachedMessage),
      (L.map (fun p => p.2.uniqueId)).foldl
        (fun acc uid => delete_message uid acc) md =
      L.foldl (fun acc p => delete_message p.2.uniqueId acc) md :=
    fun L => List.foldl_map (fun p => p.2.uniqueId)
      (fun acc uid => delete_message uid acc) L md
  have henumC : msgs.enum = List.enumFrom 0 msgs := rfl
  have henumM : md.enum = List.enumFrom 0 md := rfl
  have hmd1 : (expunge msgs md u).2.1 = md.filter (fun m => !hasT m) := by
    rw [e1, ← hfold, List.map_reverse, henumC, expunge_bridge_ids hcoh 0]
    refine foldl_delete_eq_filter _ md hnd ?_
    rw [← enumFrom_filter_map_snd hasT 0 md, List.map_map]
    exact List.reverse_perm _
  have hseqs : (expunge msgs md u).1 =
      (md.enum.filter (fun p => hasT p.2)).map (fun p => p.1 + 1) := by
    rw [e0, List.map_reverse, List.reverse_reverse, henumC,
      expunge_bridge_seqs hcoh 0, ← henumM]
  refine ⟨hmd1, hseqs, ?_, ?_, ?_, ?_⟩
  · rw [hseqs]
    refine List.Pairwise.map _ ?_
      ((pairwise_fst_lt_enumFrom 0 md).filter (fun p => hasT p.2))
    intro a b hab
    omega
  · rw [e3, hmd1, loadFrom_counter]
  · intro j hj
    have hlist : (expunge msgs md u).2.2.1 =
        (loadFrom 1 u (md.filter (fun m => !hasT m))).1 := by
      rw [e2, hmd1]
    have hj' : j < (md.filter (fun m => !hasT m)).length := by
      rw [hlist, loadFrom_len] at hj
      exact hj
    rw [List.getD_eq_getElem?_getD, hlist,
      loadFrom_get (md.filter (fun m => !hasT m)) 1 u j hj']
    rfl
  · intro i hi hp
    have hcle : (md.take i).countP hasT ≤ i := by
      calc (md.take i).countP hasT ≤ (md.take i).length :=
            List.countP_le_length hasT
        _ ≤ i := by simp [List.length_take]
    have hfil := filter_not_getElem hasT md i hi hp
    have hjlen : i - (md.take i).countP hasT <
        (md.filter (fun m => !hasT m)).length := by
      by_contra hge
      rw [List.getElem?_eq_none (by omega)] at hfil
      exact Option.noConfusion hfil
    have hval : (md.filter (fun m => !hasT m)).getD
        (i - (md.take i).countP hasT) default = md.getD i default := by
      rw [List.getD_eq_getElem?_getD, hfil]
      rfl
    rw [e2, hmd1]
    have hget := loadFrom_get (md.filter (fun m => !hasT m)) 1 u
      (i - (md.take i).countP hasT) hjlen
    rw [hval] at hget
    rw [hget]
    congr 2
    omega

/-- Witness for C2 at a concrete mailbox: two messages, the second
`\Deleted`; expunge leaves the store holding only the first message and
emits sequence 2. -/
theorem C2_expunge_amended_witness :
    (expunge [⟨1, 1, 1, 10, [], 0⟩, ⟨2, 2, 2, 20, ["\\Deleted"], 1⟩]
      [⟨1, 10, [], false, 0⟩, ⟨2, 20, ['T'], false, 1⟩] 3).2.1 =
        [⟨1, 10, [], false, 0⟩] ∧
    (expunge [⟨1, 1, 1, 10, [], 0⟩, ⟨2, 2, 2, 20, ["\\Deleted"], 1⟩]
      [⟨1, 10, [], false, 0⟩, ⟨2, 20, ['T'], false, 1⟩] 3).1 = [2] := by
  have h := C2_expunge_amended
    [⟨1, 1, 1, 10, [], 0⟩, ⟨2, 2, 2, 20, ["\\Deleted"], 1⟩]
    [⟨1, 10, [], false, 0⟩, ⟨2, 20, ['T'], false, 1⟩] 3
    (List.Forall₂.cons ⟨rfl, by decide⟩
      (List.Forall₂.cons ⟨rfl, by decide⟩ List.Forall₂.nil))
    (by decide)
  constructor
  · rw [h.1]; decide
  · rw [h.2.1]; decide

end EmailServer
